import Mathlib

/-
Verification of the control-plane logic of the MongoDB Kubernetes operator
(src/src/charm.py, src/src/config.py, src/lib/charms/mongodb/v0/mongodb_backups.py).

The Python code is embedded shallowly: pure decision logic becomes Lean
functions, the external collaborators (the MongoDB driver, the pebble
workload gateway, the Juju secret backend, the pbm status classifier that
lives in a helper module) are passed in as explicit oracle parameters, and
the observable side effects relevant to the claims (replica-set
add/remove calls, pbm commands, service restarts) are recorded as traces.
-/

namespace MongoDBK8s

/-- Unit status values as used by the charm, mirroring the four
ops.model status classes it imports: ActiveStatus, WaitingStatus,
BlockedStatus and MaintenanceStatus, each carrying a message string. -/
inductive UnitStatus where
  | active (msg : String)
  | waiting (msg : String)
  | blocked (msg : String)
  | maintenance (msg : String)
deriving DecidableEq, Repr

/-- The isinstance ActiveStatus test the charm performs on statuses. -/
def UnitStatus.isActive : UnitStatus → Bool
  | .active _ => true
  | _ => false

/-- Environment for MongoDBBackups._get_pbm_status
(src/lib/charms/mongodb/v0/mongodb_backups.py lines 336-359):
whether charm.get_backup_service() succeeds (no ModelError), and the
status that one round of running the pbm status command classifies to.
The classification itself (process_pbm_status on the command output, or
the BlockedStatus produced from an ExecError / CalledProcessError /
generic exception) lives in a helper module outside the reconciler and
is treated as an oracle: classifiedStatus is its result, whichever
branch produced it. -/
structure PbmEnv where
  backupServiceExists : Bool
  classifiedStatus : UnitStatus
deriving DecidableEq, Repr

/-- MongoDBBackups._get_pbm_status: if get_backup_service raises
ModelError the function returns WaitingStatus("waiting for pbm to start")
without running any pbm command; otherwise it executes the pbm status
command and returns the classified result. The Bool records whether the
pbm status command was executed. -/
def getPbmStatus (env : PbmEnv) : UnitStatus × Bool :=
  if env.backupServiceExists then
    (env.classifiedStatus, true)
  else
    (UnitStatus.waiting "waiting for pbm to start", false)

/-- The status-selection conditional closing MongoDBCharm._on_update_status
(src/src/charm.py lines 482-491): the unit status becomes the MongoDB
status unless the MongoDB status is active, an s3-credentials relation
exists, and the pbm status is not active, in which case it becomes the
pbm status. -/
def projectUnitStatus (mongodb_status : UnitStatus) (hasS3Relation : Bool)
    (pbm_status : UnitStatus) : UnitStatus :=
  if !mongodb_status.isActive || !hasS3Relation || pbm_status.isActive then
    mongodb_status
  else
    pbm_status

/-- Environment for MongoDBCharm._on_update_status (src/src/charm.py
lines 459-491): the db_initialised peer flag, readiness of the direct
localhost MongoDB connection, the result of build_unit_status (a helper
outside the handler, treated as an oracle), whether the s3-credentials
relation exists, and the pbm environment. -/
structure UpdateStatusEnv where
  dbInitialised : Bool
  directMongoReady : Bool
  mongodbStatus : UnitStatus
  hasS3Relation : Bool
  pbm : PbmEnv
deriving DecidableEq, Repr

/-- MongoDBCharm._on_update_status (src/src/charm.py lines 459-491).
Returns the unit status the handler sets (none when it returns before
setting one) and whether the pbm status command was executed during the
run. The leader-only call to _relation_changes_handler (line 474) only
issues replica-set reconfiguration and exporter/pbm-agent pebble-layer
updates; it runs no pbm status command and does not influence the
status assignment below it, so it is not represented here. -/
def onUpdateStatus (env : UpdateStatusEnv) : Option UnitStatus × Bool :=
  if !env.dbInitialised then
    (none, false)
  else if !env.directMongoReady then
    (some (UnitStatus.waiting "Waiting for MongoDB to start"), false)
  else
    let (pbm_status, queried) := getPbmStatus env.pbm
    (some (projectUnitStatus env.mongodbStatus env.hasS3Relation pbm_status), queried)

/-- Claim C6: the status projector gives the database status precedence:
whenever the MongoDB status is not active the projected status is the
MongoDB status regardless of the pbm status; the pbm status surfaces
exactly when the MongoDB status is active, an s3 relation exists and the
pbm status is not active; in particular a blocked database status with
an active backup status projects the database status. -/
theorem update_status_precedence :
    ∀ (mdb : UnitStatus) (s3 : Bool) (pbm : UnitStatus),
      (mdb.isActive = false → projectUnitStatus mdb s3 pbm = mdb) ∧
      (¬(mdb.isActive = true ∧ s3 = true ∧ pbm.isActive = false) →
        projectUnitStatus mdb s3 pbm = mdb) ∧
      (mdb.isActive = true → s3 = true → pbm.isActive = false →
        projectUnitStatus mdb s3 pbm = pbm) ∧
      projectUnitStatus (UnitStatus.blocked "error") true (UnitStatus.active "") =
        UnitStatus.blocked "error" := by
  intro mdb s3 pbm
  refine ⟨?_, ?_, ?_, by decide⟩ <;>
    cases mdb <;> cases pbm <;> cases s3 <;>
      simp [projectUnitStatus, UnitStatus.isActive]

/-- Witness for update_status_precedence at concrete statuses. -/
theorem update_status_precedence_witness :
    projectUnitStatus (UnitStatus.blocked "err") true (UnitStatus.active "") =
      UnitStatus.blocked "err" :=
  (update_status_precedence (UnitStatus.blocked "err") true (UnitStatus.active "")).1 rfl

/-- An update-status run with the database initialised and active, no
s3-credentials relation, and the pbm-agent service present. -/
def updateStatusEnvNoS3 : UpdateStatusEnv :=
  { dbInitialised := true
    directMongoReady := true
    mongodbStatus := UnitStatus.active ""
    hasS3Relation := false
    pbm := { backupServiceExists := true, classifiedStatus := UnitStatus.active "" } }

/-- Counterexample to claim C3: with the database active and no
s3-credentials relation the projected status is indeed the database
status alone, but _on_update_status still calls _get_pbm_status
unconditionally (src/src/charm.py line 481), which executes the pbm
status command, contradicting the claim that the backup status is never
queried in that handler run. -/
theorem update_status_queries_pbm_without_s3 :
    (onUpdateStatus updateStatusEnvNoS3).1 = some (UnitStatus.active "") ∧
    (onUpdateStatus updateStatusEnvNoS3).2 = true ∧
    ¬((onUpdateStatus updateStatusEnvNoS3).2 = false) := by
  decide

/-- Claim C3 as amended: when the database is initialised, the direct
connection is ready, the database status is active and no s3-credentials
relation exists, the projected unit status is the database status alone;
the pbm status is nevertheless queried, and the pbm status command is
executed exactly when the backup service is present. -/
theorem update_status_active_no_s3 :
    ∀ env : UpdateStatusEnv,
      env.dbInitialised = true →
      env.directMongoReady = true →
      env.mongodbStatus.isActive = true →
      env.hasS3Relation = false →
      (onUpdateStatus env).1 = some env.mongodbStatus ∧
      (onUpdateStatus env).2 = env.pbm.backupServiceExists := by
  intro env h1 h2 h3 h4
  cases env with
  | mk dbi ready mdb s3 pbm =>
    cases pbm with
    | mk svc cls =>
      simp_all [onUpdateStatus, getPbmStatus, projectUnitStatus]
      cases svc <;> simp

/-- Witness for update_status_active_no_s3 at the concrete environment. -/
theorem update_status_active_no_s3_witness :
    (onUpdateStatus updateStatusEnvNoS3).1 = some (UnitStatus.active "") ∧
    (onUpdateStatus updateStatusEnvNoS3).2 = true :=
  update_status_active_no_s3 updateStatusEnvNoS3 rfl rfl rfl rfl

/-- A membership-mutating call issued against the live replica set
through the MongoDB connection: mongo.remove_replset_member or
mongo.add_replset_member, identified by the member hostname. -/
inductive MongoCall where
  | removeMember (host : String)
  | addMember (host : String)
deriving DecidableEq, Repr

/-- The triggering event of a reconciliation pass, as far as
_relation_changes_handler inspects it at src/src/charm.py lines 430-431:
either a RelationDepartedEvent whose unit attribute (possibly absent)
is here identified by the hostname get_hostname_for_unit would derive
for it, or any other trigger (relation joined/changed, leader elected,
update status). -/
inductive ReconcileEvent where
  | relationDeparted (unit : Option String)
  | other
deriving DecidableEq, Repr

/-- Python set membership. The charm manipulates Python sets of
hostnames; the embedding represents a set by a list of its elements
(iteration order of a Python set is unspecified, so the claims below do
not depend on the order) and applies set semantics to it. -/
def setDiff (a b : List String) : List String :=
  a.filter (fun x => !b.contains x)

/-- Python set equality: same elements, order and duplicates ignored. -/
def setEqb (a b : List String) : Bool :=
  a.all (fun x => b.contains x) && b.all (fun x => a.contains x)

/-- MongoDBCharm._add_units_from_replica_set (src/src/charm.py lines
787-797): for each member to add, first open a direct connection and
check readiness (the isReady oracle); if the member is not ready, defer
and return without touching the remaining members, otherwise issue
add_replset_member and continue. Returns the issued calls and whether
the loop completed (false means the event was deferred). -/
def add_units_from_replica_set (isReady : String → Bool) :
    List String → List MongoCall × Bool
  | [] => ([], true)
  | member :: rest =>
    if isReady member then
      let res := add_units_from_replica_set isReady rest
      (MongoCall.addMember member :: res.1, res.2)
    else
      ([], false)

/-- MongoDBCharm._remove_units_from_replica_set (src/src/charm.py lines
799-804): issue remove_replset_member for each member to remove. -/
def remove_units_from_replica_set (units_to_remove : List String) : List MongoCall :=
  units_to_remove.map MongoCall.removeMember

/-- The reconciliation core of MongoDBCharm._relation_changes_handler
(src/src/charm.py lines 412-443): compare the live replica-set member
set with the desired host set; if equal do nothing; otherwise remove
replset_members - mongodb_hosts first, then, when the trigger is a
RelationDepartedEvent with a unit, exclude that unit hostname from the
desired hosts, and add the remaining mongodb_hosts - replset_members
(each gated by a direct readiness check). Returns the list of issued
membership calls in order and whether the event was deferred. The
surrounding guards (leader check, db_initialised check, secret
generation) and the final _update_app_relation_data call issue no
membership calls and are not represented; driver failures
(NotReadyError, PyMongoError), which abort the pass and defer it, are
not modelled since every claim here concerns passes where the driver
calls themselves succeed. -/
def relation_changes_reconcile (replset_members mongodb_hosts : List String)
    (ev : ReconcileEvent) (isReady : String → Bool) : List MongoCall × Bool :=
  if setEqb replset_members mongodb_hosts then
    ([], false)
  else
    let removes := remove_units_from_replica_set (setDiff replset_members mongodb_hosts)
    let hosts :=
      match ev with
      | ReconcileEvent.relationDeparted (some u) => mongodb_hosts.filter (fun x => !(x == u))
      | _ => mongodb_hosts
    let adds := add_units_from_replica_set isReady (setDiff hosts replset_members)
    (removes ++ adds.1, !adds.2)

/-- Effect of a sequence of membership calls on the live member set:
remove_replset_member removes the hostname from the replica-set
configuration, add_replset_member adds it. -/
def applyMongoCalls (members : List String) (calls : List MongoCall) : List String :=
  calls.foldl
    (fun s c =>
      match c with
      | MongoCall.removeMember h => s.filter (fun x => !(x == h))
      | MongoCall.addMember h => if s.contains h then s else s ++ [h])
    members

theorem mem_setDiff {a b : List String} {x : String} :
    x ∈ setDiff a b ↔ x ∈ a ∧ x ∉ b := by
  simp [setDiff, List.mem_filter, List.elem_iff]

theorem setEqb_iff {a b : List String} :
    setEqb a b = true ↔ ∀ x, x ∈ a ↔ x ∈ b := by
  simp only [setEqb, Bool.and_eq_true, List.all_eq_true, List.elem_iff]
  constructor
  · rintro ⟨h1, h2⟩ x
    exact ⟨fun hx => by simpa using h1 x hx, fun hx => by simpa using h2 x hx⟩
  · intro h
    exact ⟨fun x hx => by simpa using (h x).mp hx, fun x hx => by simpa using (h x).mpr hx⟩

theorem add_units_sub {isReady : String → Bool} {l : List String} {x : String}
    (h : MongoCall.addMember x ∈ (add_units_from_replica_set isReady l).1) : x ∈ l := by
  induction l with
  | nil => simp [add_units_from_replica_set] at h
  | cons m rest ih =>
    by_cases hm : isReady m = true
    · simp only [add_units_from_replica_set, hm, if_true, List.mem_cons] at h
      rcases h with h | h
      · simp only [MongoCall.addMember.injEq] at h
        simp [h]
      · exact List.mem_cons_of_mem _ (ih h)
    · simp [add_units_from_replica_set, hm] at h

theorem add_units_exists_map (isReady : String → Bool) (l : List String) :
    ∃ as : List String,
      (add_units_from_replica_set isReady l).1 = as.map MongoCall.addMember := by
  induction l with
  | nil => exact ⟨[], rfl⟩
  | cons m rest ih =>
    obtain ⟨as, has⟩ := ih
    by_cases hm : isReady m = true
    · refine ⟨m :: as, ?_⟩
      simp only [add_units_from_replica_set, hm, if_true, List.map_cons]
      exact congrArg (List.cons (MongoCall.addMember m)) has
    · refine ⟨[], ?_⟩
      simp [add_units_from_replica_set, hm]

theorem add_units_completed {isReady : String → Bool} {l : List String}
    (h : (add_units_from_replica_set isReady l).2 = true) :
    (add_units_from_replica_set isReady l).1 = l.map MongoCall.addMember := by
  induction l with
  | nil => rfl
  | cons m rest ih =>
    by_cases hm : isReady m = true
    · simp only [add_units_from_replica_set, hm, if_true] at h ⊢
      simp [ih h]
    · simp [add_units_from_replica_set, hm] at h

theorem applyMongoCalls_append (s : List String) (c1 c2 : List MongoCall) :
    applyMongoCalls s (c1 ++ c2) = applyMongoCalls (applyMongoCalls s c1) c2 :=
  List.foldl_append ..

theorem mem_apply_removes {s : List String} {l : List String} {x : String} :
    x ∈ applyMongoCalls s (l.map MongoCall.removeMember) ↔ x ∈ s ∧ x ∉ l := by
  induction l generalizing s with
  | nil => simp [applyMongoCalls]
  | cons h rest ih =>
    simp only [List.map_cons, applyMongoCalls, List.foldl_cons] at ih ⊢
    rw [ih]
    simp only [List.mem_filter, List.mem_cons]
    constructor
    · rintro ⟨⟨hs, hne⟩, hrest⟩
      simp only [Bool.not_eq_eq_eq_not, Bool.not_true, beq_eq_false_iff_ne] at hne
      exact ⟨hs, by simp [hne, hrest]⟩
    · rintro ⟨hs, hnot⟩
      push_neg at hnot
      exact ⟨⟨hs, by simp [hnot.1]⟩, hnot.2⟩

theorem mem_apply_adds {s : List String} {l : List String} {x : String} :
    x ∈ applyMongoCalls s (l.map MongoCall.addMember) ↔ x ∈ s ∨ x ∈ l := by
  induction l generalizing s with
  | nil => simp [applyMongoCalls]
  | cons h rest ih =>
    simp only [List.map_cons, applyMongoCalls, List.foldl_cons] at ih ⊢
    rw [ih]
    by_cases hc : s.contains h = true
    · have hmem : h ∈ s := List.elem_iff.mp hc
      rw [if_pos hc]
      simp only [List.mem_cons]
      constructor
      · rintro (hs | hr)
        · exact Or.inl hs
        · exact Or.inr (Or.inr hr)
      · rintro (hs | rfl | hr)
        · exact Or.inl hs
        · exact Or.inl hmem
        · exact Or.inr hr
    · rw [if_neg hc]
      simp only [List.mem_append, List.mem_singleton, List.mem_cons]
      tauto

/-- The departing-unit exclusion at src/src/charm.py lines 430-431: on a
RelationDepartedEvent carrying a unit, the hostname of that unit is
subtracted from the desired hosts before computing the members to add. -/
theorem hosts_to_add_departed (desired : List String) (u : String) (x : String) :
    x ∈ desired.filter (fun y => !(y == u)) ↔ x ∈ desired ∧ x ≠ u := by
  simp [List.mem_filter]

theorem reconcile_of_ne {live desired : List String} {ev : ReconcileEvent}
    {isReady : String → Bool} (h : setEqb live desired = false) :
    relation_changes_reconcile live desired ev isReady =
      (remove_units_from_replica_set (setDiff live desired) ++
        (add_units_from_replica_set isReady
          (setDiff
            (match ev with
             | ReconcileEvent.relationDeparted (some u) =>
                 desired.filter (fun x => !(x == u))
             | _ => desired)
            live)).1,
       !(add_units_from_replica_set isReady
          (setDiff
            (match ev with
             | ReconcileEvent.relationDeparted (some u) =>
                 desired.filter (fun x => !(x == u))
             | _ => desired)
            live)).2) := by
  simp [relation_changes_reconcile, h]

/-- Claim C1: every reconciliation pass issues all RemoveMember calls
before any AddMember call, and in particular for desired = [a, c] and
live = [a, b] the pass issues exactly RemoveMember(b) followed by
AddMember(c). -/
theorem reconcile_removals_before_additions :
    (∀ (live desired : List String) (ev : ReconcileEvent) (isReady : String → Bool),
       ∃ rs as : List String,
         (relation_changes_reconcile live desired ev isReady).1 =
           rs.map MongoCall.removeMember ++ as.map MongoCall.addMember) ∧
    (relation_changes_reconcile ["a", "b"] ["a", "c"] ReconcileEvent.other
        (fun _ => true)).1 =
      [MongoCall.removeMember "b", MongoCall.addMember "c"] := by
  constructor
  · intro live desired ev isReady
    by_cases h : setEqb live desired = true
    · exact ⟨[], [], by simp [relation_changes_reconcile, h]⟩
    · rw [reconcile_of_ne (Bool.eq_false_iff.mpr h)]
      obtain ⟨as, has⟩ := add_units_exists_map isReady
        (setDiff
          (match ev with
           | ReconcileEvent.relationDeparted (some u) =>
               desired.filter (fun x => !(x == u))
           | _ => desired)
          live)
      exact ⟨setDiff live desired, as, by rw [has]; rfl⟩
  · decide

/-- Claim C4: when the trigger is a departing-member notification for
unit b, the reconciler never issues AddMember(b) in that pass, whatever
the inventory and the live member set are. -/
theorem reconcile_departing_unit_not_added :
    ∀ (live desired : List String) (isReady : String → Bool) (b : String),
      ((relation_changes_reconcile live desired
          (ReconcileEvent.relationDeparted (some b)) isReady).1).count
        (MongoCall.addMember b) = 0 := by
  intro live desired isReady b
  rw [List.count_eq_zero]
  by_cases h : setEqb live desired = true
  · simp [relation_changes_reconcile, h]
  · rw [reconcile_of_ne (Bool.eq_false_iff.mpr h)]
    intro hmem
    rcases List.mem_append.mp hmem with hmem | hmem
    · simp [remove_units_from_replica_set] at hmem
    · have hb := mem_setDiff.mp (add_units_sub hmem)
      have := (hosts_to_add_departed desired b b).mp hb.1
      exact this.2 rfl

/-- Claim C5: when the live member set equals the desired host set, the
reconciliation pass issues no membership calls; consequently, after a
pass that completed without deferring (all additions applied), a second
pass with the same inventory issues no membership calls either. -/
theorem reconcile_idempotent :
    (∀ (live desired : List String) (ev : ReconcileEvent) (isReady : String → Bool),
       setEqb live desired = true →
       (relation_changes_reconcile live desired ev isReady).1 = []) ∧
    (∀ (live desired : List String) (isReady : String → Bool),
       (relation_changes_reconcile live desired ReconcileEvent.other isReady).2 = false →
       (relation_changes_reconcile
          (applyMongoCalls live
            (relation_changes_reconcile live desired ReconcileEvent.other isReady).1)
          desired ReconcileEvent.other isReady).1 = []) := by
  constructor
  · intro live desired ev isReady h
    simp [relation_changes_reconcile, h]
  · intro live desired isReady hdone
    by_cases h : setEqb live desired = true
    · simp [relation_changes_reconcile, h, applyMongoCalls]
    · have hne := Bool.eq_false_iff.mpr h
      rw [reconcile_of_ne hne] at hdone ⊢
      simp only [Bool.not_eq_false'] at hdone
      have hadds := add_units_completed hdone
      have hmem : ∀ x,
          x ∈ applyMongoCalls live
            (remove_units_from_replica_set (setDiff live desired) ++
              (add_units_from_replica_set isReady (setDiff desired live)).1) ↔
          x ∈ desired := by
        intro x
        rw [hadds, applyMongoCalls_append]
        rw [remove_units_from_replica_set] at *
        rw [mem_apply_adds, mem_apply_removes]
        simp only [mem_setDiff]
        by_cases hx : x ∈ desired <;> by_cases hy : x ∈ live <;> simp [hx, hy]
      have : setEqb
          (applyMongoCalls live
            (remove_units_from_replica_set (setDiff live desired) ++
              (add_units_from_replica_set isReady (setDiff desired live)).1))
          desired = true := setEqb_iff.mpr hmem
      simp [relation_changes_reconcile, this]

/-- Witness for reconcile_idempotent: a converged pass issues nothing,
and a second pass after a completed pass issues nothing. -/
theorem reconcile_idempotent_witness :
    (relation_changes_reconcile ["a"] ["a"] ReconcileEvent.other (fun _ => true)).1 = [] ∧
    (relation_changes_reconcile
        (applyMongoCalls ["a"]
          (relation_changes_reconcile ["a"] ["a", "b"] ReconcileEvent.other
            (fun _ => true)).1)
        ["a", "b"] ReconcileEvent.other (fun _ => true)).1 = [] :=
  ⟨reconcile_idempotent.1 ["a"] ["a"] ReconcileEvent.other (fun _ => true) (by decide),
   reconcile_idempotent.2 ["a"] ["a", "b"] (fun _ => true) (by decide)⟩

/-- Claim C8: during the addition phase, each host is checked for
readiness over a direct connection before being added; at the first
host that is not ready the remaining additions are aborted and the pass
signals defer, so the calls issued are exactly the additions of the
ready hosts preceding it, and no AddMember is issued for the not-ready
host or any host after it. -/
theorem add_units_abort_on_not_ready :
    ∀ (ready_hosts tail : List String) (h : String) (isReady : String → Bool),
      (∀ x ∈ ready_hosts, isReady x = true) → isReady h = false →
      (add_units_from_replica_set isReady (ready_hosts ++ h :: tail)).1 =
          ready_hosts.map MongoCall.addMember ∧
      (add_units_from_replica_set isReady (ready_hosts ++ h :: tail)).2 = false := by
  intro ready_hosts tail h isReady hready hnot
  induction ready_hosts with
  | nil => simp [add_units_from_replica_set, hnot]
  | cons m rest ih =>
    have hm : isReady m = true := hready m (List.mem_cons_self m rest)
    have hrest := ih (fun x hx => hready x (List.mem_cons_of_mem m hx))
    simp only [List.cons_append, add_units_from_replica_set, hm, if_true]
    simp [hrest.1, hrest.2]

/-- Witness for add_units_abort_on_not_ready at a concrete host list. -/
theorem add_units_abort_on_not_ready_witness :
    (add_units_from_replica_set (fun x => !(x == "b")) ["a", "b", "c"]).1 =
        [MongoCall.addMember "a"] ∧
    (add_units_from_replica_set (fun x => !(x == "b")) ["a", "b", "c"]).2 = false :=
  add_units_abort_on_not_ready ["a"] ["c"] "b" (fun x => !(x == "b"))
    (by decide) (by decide)

/-- Outcome of a charm action handler: event.fail with a message,
event.defer, or falling through to perform the operation. -/
inductive ActionResult where
  | failed (msg : String)
  | deferred
  | proceeded
deriving DecidableEq, Repr

/-- MongoDBBackups._on_create_backup_action
(src/lib/charms/mongodb/v0/mongodb_backups.py lines 116-146): fail if
the s3-credentials relation is missing, fail on a non-leader unit, then
fetch the pbm status and fail on maintenance, defer on waiting, fail
with the message on blocked, and otherwise proceed. Returns the action
outcome and whether the pbm status was queried. -/
def on_create_backup_action (hasS3Relation isLeader : Bool) (pbm : PbmEnv) :
    ActionResult × Bool :=
  if !hasS3Relation then
    (ActionResult.failed "Relation with s3-integrator charm missing, cannot create backup.",
     false)
  else if !isLeader then
    (ActionResult.failed "The action can be run only on leader unit.", false)
  else
    let (pbm_status, queried) := getPbmStatus pbm
    match pbm_status with
    | UnitStatus.maintenance _ =>
      (ActionResult.failed
        "Can only create one backup at a time, please wait for current backup to finish.",
       queried)
    | UnitStatus.waiting _ => (ActionResult.deferred, queried)
    | UnitStatus.blocked m =>
      (ActionResult.failed ("Cannot create backup " ++ m ++ "."), queried)
    | UnitStatus.active _ => (ActionResult.proceeded, queried)

/-- MongoDBBackups._on_list_backups_action
(src/lib/charms/mongodb/v0/mongodb_backups.py lines 148-167): fail if
the s3-credentials relation is missing, then fetch the pbm status and
defer on waiting, fail with the message on blocked, and otherwise
proceed; there is no leader check and no maintenance check. -/
def on_list_backups_action (hasS3Relation : Bool) (pbm : PbmEnv) :
    ActionResult × Bool :=
  if !hasS3Relation then
    (ActionResult.failed "Relation with s3-integrator charm missing, cannot list backups.",
     false)
  else
    let (pbm_status, queried) := getPbmStatus pbm
    match pbm_status with
    | UnitStatus.waiting _ => (ActionResult.deferred, queried)
    | UnitStatus.blocked m =>
      (ActionResult.failed ("Cannot list backups: " ++ m ++ "."), queried)
    | _ => (ActionResult.proceeded, queried)

/-- MongoDBBackups._on_restore_action
(src/lib/charms/mongodb/v0/mongodb_backups.py lines 169-201): fail if
the s3-credentials relation is missing, fail if the backup-id parameter
is absent or empty, fail on a non-leader unit, then fetch the pbm
status and fail on maintenance, defer on waiting, fail with the message
on blocked, and otherwise proceed. -/
def on_restore_action (hasS3Relation : Bool) (backupId : Option String)
    (isLeader : Bool) (pbm : PbmEnv) : ActionResult × Bool :=
  if !hasS3Relation then
    (ActionResult.failed
      "Relation with s3-integrator charm missing, cannot restore from a backup.",
     false)
  else if backupId.getD "" = "" then
    (ActionResult.failed "Missing backup-id to restore", false)
  else if !isLeader then
    (ActionResult.failed "The action can be run only on leader unit.", false)
  else
    let (pbm_status, queried) := getPbmStatus pbm
    match pbm_status with
    | UnitStatus.maintenance _ =>
      (ActionResult.failed "Please wait for current backup/restore to finish.", queried)
    | UnitStatus.waiting _ => (ActionResult.deferred, queried)
    | UnitStatus.blocked m =>
      (ActionResult.failed ("Cannot restore backup " ++ m ++ "."), queried)
    | UnitStatus.active _ => (ActionResult.proceeded, queried)

/-- Claim C7: action admission for the three backup actions. Without
the s3-credentials relation each action fails at once and the pbm
status is never queried. Create-backup and restore also fail on a
non-leader unit, while list-backups performs no leader check (its
handler does not even consult leadership). Otherwise, with the backup
service present, a maintenance status makes create-backup and restore
fail but lets list-backups proceed, a waiting status defers all three,
a blocked status fails all three with the blocked message, and an
active status lets all three proceed. -/
theorem backup_action_admission :
    ∀ (leader : Bool) (pbm : PbmEnv) (bid m : String),
      bid ≠ "" →
      ((on_create_backup_action false leader pbm).1 =
          ActionResult.failed "Relation with s3-integrator charm missing, cannot create backup." ∧
        (on_create_backup_action false leader pbm).2 = false) ∧
      ((on_list_backups_action false pbm).1 =
          ActionResult.failed "Relation with s3-integrator charm missing, cannot list backups." ∧
        (on_list_backups_action false pbm).2 = false) ∧
      ((on_restore_action false (some bid) leader pbm).1 =
          ActionResult.failed
            "Relation with s3-integrator charm missing, cannot restore from a backup." ∧
        (on_restore_action false (some bid) leader pbm).2 = false) ∧
      ((on_create_backup_action true false pbm).1 =
          ActionResult.failed "The action can be run only on leader unit.") ∧
      ((on_restore_action true (some bid) false pbm).1 =
          ActionResult.failed "The action can be run only on leader unit.") ∧
      ((on_create_backup_action true true ⟨true, UnitStatus.maintenance m⟩).1 =
          ActionResult.failed
            "Can only create one backup at a time, please wait for current backup to finish.") ∧
      ((on_restore_action true (some bid) true ⟨true, UnitStatus.maintenance m⟩).1 =
          ActionResult.failed "Please wait for current backup/restore to finish.") ∧
      ((on_list_backups_action true ⟨true, UnitStatus.maintenance m⟩).1 =
          ActionResult.proceeded) ∧
      ((on_create_backup_action true true ⟨true, UnitStatus.waiting m⟩).1 =
          ActionResult.deferred) ∧
      ((on_list_backups_action true ⟨true, UnitStatus.waiting m⟩).1 =
          ActionResult.deferred) ∧
      ((on_restore_action true (some bid) true ⟨true, UnitStatus.waiting m⟩).1 =
          ActionResult.deferred) ∧
      ((on_create_backup_action true true ⟨true, UnitStatus.blocked m⟩).1 =
          ActionResult.failed ("Cannot create backup " ++ m ++ ".")) ∧
      ((on_list_backups_action true ⟨true, UnitStatus.blocked m⟩).1 =
          ActionResult.failed ("Cannot list backups: " ++ m ++ ".")) ∧
      ((on_restore_action true (some bid) true ⟨true, UnitStatus.blocked m⟩).1 =
          ActionResult.failed ("Cannot restore backup " ++ m ++ ".")) ∧
      ((on_create_backup_action true true ⟨true, UnitStatus.active m⟩).1 =
          ActionResult.proceeded) ∧
      ((on_list_backups_action true ⟨true, UnitStatus.active m⟩).1 =
          ActionResult.proceeded) ∧
      ((on_restore_action true (some bid) true ⟨true, UnitStatus.active m⟩).1 =
          ActionResult.proceeded) := by
  intro leader pbm bid m hbid
  refine ⟨⟨rfl, rfl⟩, ⟨rfl, rfl⟩, ⟨?_, ?_⟩, rfl, ?_, rfl, ?_, rfl, rfl, rfl, ?_, rfl,
    rfl, ?_, rfl, rfl, ?_⟩ <;>
    simp [on_restore_action, getPbmStatus, hbid]

/-- Witness for backup_action_admission at concrete inputs. -/
theorem backup_action_admission_witness :
    (on_restore_action true (some "2023-10-10") false
        ⟨true, UnitStatus.active ""⟩).1 =
      ActionResult.failed "The action can be run only on leader unit." ∧
    (on_list_backups_action true ⟨true, UnitStatus.maintenance "backup"⟩).1 =
      ActionResult.proceeded :=
  ⟨(backup_action_admission false ⟨true, UnitStatus.active ""⟩ "2023-10-10" "backup"
      (by decide)).2.2.2.2.1,
   (backup_action_admission false ⟨true, UnitStatus.active ""⟩ "2023-10-10" "backup"
      (by decide)).2.2.2.2.2.2.2.1⟩

/-- An observable operation of the backup sync coordinator: starting
the pbm-agent service, one _get_pbm_status poll, restarting the
pbm-agent service, and issuing the config --force-resync command. -/
inductive PbmOp where
  | startService
  | pollStatus
  | restartService
  | resyncCommand
deriving DecidableEq, Repr

/-- Busy test of the pre-check loop at
src/lib/charms/mongodb/v0/mongodb_backups.py lines 280-287: the status
is an instance of MaintenanceStatus or of WaitingStatus. -/
def UnitStatus.isBusy : UnitStatus → Bool
  | .maintenance _ => true
  | .waiting _ => true
  | _ => false

/-- The isinstance WaitingStatus test. -/
def UnitStatus.isWaiting : UnitStatus → Bool
  | .waiting _ => true
  | _ => false

/-- The pre-check retry loop of MongoDBBackups._resync_config_options
(src/lib/charms/mongodb/v0/mongodb_backups.py lines 272-287), a tenacity
Retrying with stop_after_attempt(20), wait_fixed(5) and reraise=True.
Each attempt polls _get_pbm_status (statusAt i is the classified status
observed by attempt i); on a MaintenanceStatus the attempt raises
PBMBusyError with no further action, on a WaitingStatus it restarts the
backup service and then raises PBMBusyError, and on any other status
the loop exits successfully. A raise on the final attempt is re-raised
to the caller. The arguments are the attempt index and the number of
attempts left; the result is the operation trace and whether the loop
exited successfully (false means PBMBusyError propagated). -/
def resync_precheck (statusAt : Nat → UnitStatus) (i : Nat) : Nat → List PbmOp × Bool
  | 0 => ([], false)
  | n + 1 =>
    match statusAt i with
    | UnitStatus.maintenance _ =>
      if n = 0 then ([PbmOp.pollStatus], false)
      else
        let rest := resync_precheck statusAt (i + 1) n
        (PbmOp.pollStatus :: rest.1, rest.2)
    | UnitStatus.waiting _ =>
      if n = 0 then ([PbmOp.pollStatus, PbmOp.restartService], false)
      else
        let rest := resync_precheck statusAt (i + 1) n
        (PbmOp.pollStatus :: PbmOp.restartService :: rest.1, rest.2)
    | _ => ([PbmOp.pollStatus], true)

/-- MongoDBBackups._resync_config_options
(src/lib/charms/mongodb/v0/mongodb_backups.py lines 265-293): start the
backup service, run the 20-attempt pre-check loop, and only when it
exits successfully issue the config --force-resync command (after
which the code sleeps two seconds and enters _wait_pbm_status, whose
post-resync polling none of the claims settled here concern and which
is therefore not represented). Returns the operation trace and whether
PBMBusyError was raised to the caller. -/
def resync_config_options (statusAt : Nat → UnitStatus) : List PbmOp × Bool :=
  let pre := resync_precheck statusAt 0 20
  if pre.2 then
    (PbmOp.startService :: pre.1 ++ [PbmOp.resyncCommand], false)
  else
    (PbmOp.startService :: pre.1, true)

/-- Counterexample to claim C2: when _get_pbm_status reports
MaintenanceStatus (busy running an operation) on every attempt, the
pre-check loop performs its 20 polls and raises PBMBusyError without
issuing the resync command, but it never restarts the backup daemon:
the restart at line 286 is reached only for WaitingStatus, so the
claimed 20 restarts do not happen. -/
theorem resync_all_maintenance_no_restarts :
    (resync_config_options (fun _ => UnitStatus.maintenance "backup")).1.count
        PbmOp.pollStatus = 20 ∧
    (resync_config_options (fun _ => UnitStatus.maintenance "backup")).2 = true ∧
    PbmOp.resyncCommand ∉
      (resync_config_options (fun _ => UnitStatus.maintenance "backup")).1 ∧
    (resync_config_options (fun _ => UnitStatus.maintenance "backup")).1.count
        PbmOp.restartService = 0 ∧
    ¬((resync_config_options (fun _ => UnitStatus.maintenance "backup")).1.count
        PbmOp.restartService = 20) := by
  decide

/-- The pre-check trace produced while every attempt observes a busy
status: one poll per attempt, plus a restart after each poll that
observed a WaitingStatus. -/
def busyTrace (statusAt : Nat → UnitStatus) (i : Nat) : Nat → List PbmOp
  | 0 => []
  | n + 1 =>
    PbmOp.pollStatus ::
      ((if (statusAt i).isWaiting then [PbmOp.restartService] else []) ++
        busyTrace statusAt (i + 1) n)

theorem resync_precheck_busy_eq (statusAt : Nat → UnitStatus) :
    ∀ (n i : Nat), (∀ j, j < n → (statusAt (i + j)).isBusy = true) →
      resync_precheck statusAt i n = (busyTrace statusAt i n, false) := by
  intro n
  induction n with
  | zero => intro i _; rfl
  | succ k ih =>
    intro i hbusy
    have h0 : (statusAt i).isBusy = true := by simpa using hbusy 0 (Nat.succ_pos k)
    have hshift : ∀ j, j < k → (statusAt (i + 1 + j)).isBusy = true := by
      intro j hj
      have hb := hbusy (j + 1) (by omega)
      have heq : i + (j + 1) = i + 1 + j := by omega
      rwa [heq] at hb
    have hrest := ih (i + 1) hshift
    by_cases hk0 : k = 0
    · subst hk0
      cases hstat : statusAt i with
      | active msg => rw [hstat] at h0; simp [UnitStatus.isBusy] at h0
      | blocked msg => rw [hstat] at h0; simp [UnitStatus.isBusy] at h0
      | maintenance msg =>
        simp [resync_precheck, busyTrace, hstat, UnitStatus.isWaiting]
      | waiting msg =>
        simp [resync_precheck, busyTrace, hstat, UnitStatus.isWaiting]
    · cases hstat : statusAt i with
      | active msg => rw [hstat] at h0; simp [UnitStatus.isBusy] at h0
      | blocked msg => rw [hstat] at h0; simp [UnitStatus.isBusy] at h0
      | maintenance msg =>
        simp [resync_precheck, busyTrace, hstat, UnitStatus.isWaiting, hrest, hk0]
      | waiting msg =>
        simp [resync_precheck, busyTrace, hstat, UnitStatus.isWaiting, hrest, hk0]

theorem busyTrace_counts (statusAt : Nat → UnitStatus) :
    ∀ (n i : Nat),
      (busyTrace statusAt i n).count PbmOp.pollStatus = n ∧
      (busyTrace statusAt i n).count PbmOp.restartService =
        List.countP (fun j => (statusAt (i + j)).isWaiting) (List.range n) ∧
      PbmOp.resyncCommand ∉ busyTrace statusAt i n := by
  intro n
  induction n with
  | zero => intro i; exact ⟨rfl, rfl, by simp [busyTrace]⟩
  | succ k ih =>
    intro i
    have hrec := ih (i + 1)
    have hr : List.countP (fun j => (statusAt (i + j)).isWaiting) (List.range (k + 1)) =
        (if (statusAt i).isWaiting then 1 else 0) +
          List.countP (fun j => (statusAt (i + 1 + j)).isWaiting) (List.range k) := by
      simp only [List.range_succ_eq_map, List.countP_cons, List.countP_map,
        Function.comp_def, Nat.add_zero]
      have h1 : (fun j => (statusAt (i + (j + 1))).isWaiting) =
          (fun j => (statusAt (i + 1 + j)).isWaiting) := by
        funext j
        have heq : i + (j + 1) = i + 1 + j := by omega
        rw [heq]
      rw [h1, Nat.add_comm]
    cases hw : (statusAt i).isWaiting with
    | true =>
      refine ⟨?_, ?_, ?_⟩ <;>
        simp [busyTrace, hw, List.count_cons, List.count_append, hr,
          hrec.1, hrec.2.1, hrec.2.2] <;> omega
    | false =>
      refine ⟨?_, ?_, ?_⟩ <;>
        simp [busyTrace, hw, List.count_cons, List.count_append, hr,
          hrec.1, hrec.2.1, hrec.2.2] <;> omega

/-- Claim C2 as amended: if the polled backup status is busy
(maintenance or waiting) on all 20 pre-check attempts, the operation
performs exactly 20 poll attempts and then raises PBMBusyError to the
caller without issuing the resync command; the daemon is restarted only
on the attempts that observed a WaitingStatus (resync already running),
and never on the attempts that observed a MaintenanceStatus. -/
theorem resync_precheck_busy_exhaustion (statusAt : Nat → UnitStatus)
    (hbusy : ∀ j, j < 20 → (statusAt j).isBusy = true) :
    (resync_config_options statusAt).2 = true ∧
    (resync_config_options statusAt).1.count PbmOp.pollStatus = 20 ∧
    (resync_config_options statusAt).1.count PbmOp.restartService =
      List.countP (fun j => (statusAt j).isWaiting) (List.range 20) ∧
    PbmOp.resyncCommand ∉ (resync_config_options statusAt).1 := by
  have heq := resync_precheck_busy_eq statusAt 20 0 (by simpa using hbusy)
  have hc := busyTrace_counts statusAt 20 0
  have hc2 := hc.2.1
  simp only [Nat.zero_add] at hc2
  refine ⟨?_, ?_, ?_, ?_⟩ <;>
    simp [resync_config_options, heq, List.count_cons, hc.1, hc2] <;>
    simpa using hc.2.2

/-- A status stream that alternates between a running backup and a
running resync: busy on every attempt. -/
def busyAlternating : Nat → UnitStatus := fun i =>
  if i % 2 = 0 then UnitStatus.maintenance "backup" else UnitStatus.waiting "resync"

/-- Witness for resync_precheck_busy_exhaustion on the alternating
busy stream. -/
theorem resync_precheck_busy_exhaustion_witness :
    (resync_config_options busyAlternating).2 = true ∧
    (resync_config_options busyAlternating).1.count PbmOp.restartService =
      List.countP (fun j => (busyAlternating j).isWaiting) (List.range 20) :=
  ⟨(resync_precheck_busy_exhaustion busyAlternating (by decide)).1,
   (resync_precheck_busy_exhaustion busyAlternating (by decide)).2.2.1⟩

/-- Python backslash-s whitespace class over ASCII as used by the re
module on this pattern. -/
def pyIsSpace (c : Char) : Bool :=
  c = ' ' || c = '\t' || c = '\n' || c = '\r' || c = '\x0b' || c = '\x0c'

/-- The character class of the first capture group of REMAPPING_PATTERN,
one or more characters that are neither a comma nor whitespace; note
that a period belongs to the class. -/
def remappingClassChar (c : Char) : Bool :=
  !(c = ',') && !pyIsSpace c

/-- The literal text of REMAPPING_PATTERN before the first capture group
(src/lib/charms/mongodb/v0/mongodb_backups.py line 63). The only regex
metacharacter occurring in it is the dot, which matches any character. -/
def remappingHead : List Char :=
  "Backup doesn\x27t match current cluster topology - it has different replica set names. Extra shards in the backup will cause this, for a simple example. The extra/unknown replica set names found in the backup are: ".data

/-- Match the pattern head against the text: a dot in the pattern
matches any character, every other character matches itself. Returns
the remaining text on success. -/
def matchRemappingHead : List Char → List Char → Option (List Char)
  | [], text => some text
  | _ :: _, [] => none
  | p :: ps, t :: ts => if p = '.' || p = t then matchRemappingHead ps ts else none

/-- The literal matched by the optional second group of
REMAPPING_PATTERN: the one-character class holding only the period,
followed by the literal rest of the group. -/
def remappingTail : List Char :=
  ". Backup has no data for the config server or sole replicaset".data

/-- After the first capture group, the anchored pattern accepts exactly
when the remaining text is either the optional second group followed by
the end of the input, or the end of the input itself. -/
def remappingTailOk (rest : List Char) : Bool :=
  rest == remappingTail || rest.isEmpty

/-- Greedy backtracking for the first capture group: the one-or-more
quantifier first tries the longest candidate and shortens it until the
rest of the pattern matches; candidates of length zero are rejected by
the plus quantifier. Returns the text of the first capture group of the
overall match found first, if any. -/
def remappingGreedy (rest : List Char) : Nat → Option (List Char)
  | 0 => none
  | k + 1 =>
    if remappingTailOk (rest.drop (k + 1)) then some (rest.take (k + 1))
    else remappingGreedy rest k

/-- Python re.match of REMAPPING_PATTERN
(src/lib/charms/mongodb/v0/mongodb_backups.py line 63) against a text,
returning the first capture group of the match when the pattern
matches. The pattern is anchored on both sides; it is the literal head
(with dots as wildcards), the greedy first group, the optional literal
second group, and the end anchor. A candidate for the first group
longer than the run of class characters at the match point is
impossible because its last character would violate the class, so the
greedy search starts at that run length, exactly where the re engine
finds its first viable candidate. -/
def remappingMatchGroup1 (text : List Char) : Option (List Char) :=
  match matchRemappingHead remappingHead text with
  | none => none
  | some rest => remappingGreedy rest (rest.takeWhile remappingClassChar).length

/-- The diagnostic text quoted by claim C9, ending with the extra
replica set name rs1 followed by a final period. -/
def remappingErrorText : List Char :=
  "Backup doesn\x27t match current cluster topology - it has different replica set names. Extra shards in the backup will cause this, for a simple example. The extra/unknown replica set names found in the backup are: rs1.".data

/-- Counterexample to claim C9: matching the documented diagnostic text
against REMAPPING_PATTERN succeeds, but the first capture group is
rs1 followed by a period, not rs1: the class of the group admits the
period, the greedy quantifier consumes it, and with the optional group
matching empty the anchored match succeeds without giving it back. -/
theorem remapping_extracts_trailing_period :
    remappingMatchGroup1 remappingErrorText = some "rs1.".data ∧
    ¬(remappingMatchGroup1 remappingErrorText = some "rs1".data) := by
  decide

/-- Claim C9 as amended: on the quoted diagnostic text the match
succeeds and the first capture group is rs1 with the trailing period
included; the bare name rs1 is extracted only when the text continues
with the optional second-group literal about the config server. -/
theorem remapping_match_group1_value :
    (remappingMatchGroup1 remappingErrorText).isSome = true ∧
    remappingMatchGroup1 remappingErrorText = some "rs1.".data ∧
    remappingMatchGroup1
        (remappingErrorText ++
          " Backup has no data for the config server or sole replicaset".data) =
      some "rs1".data := by
  decide

/-- Lookup in a string-keyed mapping represented as a list of pairs. -/
def kvLookup (l : List (String × String)) (k : String) : Option String :=
  (l.find? (fun p => p.1 == k)).map Prod.snd

/-- Insert or overwrite a key in a string-keyed mapping. -/
def kvSet (l : List (String × String)) (k v : String) : List (String × String) :=
  l.filter (fun p => !(p.1 == k)) ++ [(k, v)]

/-- Delete a key from a string-keyed mapping. The ops
RelationDataContent delete writes the empty string, which removes the
key from the relation data without raising for an absent key. -/
def kvErase (l : List (String × String)) (k : String) : List (String × String) :=
  l.filter (fun p => !(p.1 == k))

/-- Config.Secrets.SECRET_INTERNAL_LABEL (src/src/config.py line 89). -/
def SECRET_INTERNAL_LABEL : String := "internal-secret"

/-- Config.Secrets.SECRET_DELETED_LABEL, the tombstone value
(src/src/config.py line 90). -/
def SECRET_DELETED_LABEL : String := "None"

/-- The per-scope state the secret accessors of MongoDBCharm read and
write (the scope argument only selects which copy of this state the
functions act on): the peer relation data of the scope object, the
backing Juju secret of the scope in the model (its id and content) if
one was added, and the per-process dictionary self.secrets of the
scope, holding the secret object reference under SECRET_LABEL and the
downloaded content under SECRET_CACHE_LABEL. -/
structure SecretScopeState where
  peerData : List (String × String)
  extSecret : Option (String × List (String × String))
  secretLabelCached : Bool
  cachedContent : Option (List (String × String))
deriving DecidableEq, Repr

/-- MongoDBCharm._juju_secrets_get (src/src/charm.py lines 814-841):
if the peer data has no internal-secret label the function returns
None; otherwise, when the content cache is empty it downloads the
secret by id (returning None on SecretNotFoundError) and stores the
secret object and its content in self.secrets; finally it returns the
truthiness of the cached content dictionary. -/
def juju_secrets_get (st : SecretScopeState) : Option Bool × SecretScopeState :=
  match kvLookup st.peerData SECRET_INTERNAL_LABEL with
  | none => (none, st)
  | some sid =>
    if sid = "" then (none, st)
    else if st.cachedContent.isNone then
      match st.extSecret with
      | none => (none, st)
      | some (eid, content) =>
        if eid = sid then
          let st1 := { st with secretLabelCached := true, cachedContent := some content }
          (some (decide (content ≠ [])), st1)
        else (none, st)
    else
      (some (decide (st.cachedContent.getD [] ≠ [])), st)

/-- MongoDBCharm._juju_secret_get_key (src/src/charm.py lines 843-854):
returns the cached value for a key, unless the key is falsy, the cache
reports non-truthy, the value is absent or falsy, or the value is the
tombstone SECRET_DELETED_LABEL. -/
def juju_secret_get_key (st : SecretScopeState) (key : String) :
    Option String × SecretScopeState :=
  if key = "" then (none, st)
  else
    let res := juju_secrets_get st
    if res.1 = some true then
      match res.2.cachedContent with
      | some cache =>
        match kvLookup cache key with
        | some v =>
          if v ≠ "" && v ≠ SECRET_DELETED_LABEL then (some v, res.2) else (none, res.2)
        | none => (none, res.2)
      | none => (none, res.2)
    else (none, res.2)

/-- MongoDBCharm.get_secret (src/src/charm.py lines 856-865): on Juju
with secrets support delegate to _juju_secret_get_key, otherwise read
the peer data of the scope. -/
def get_secret (hasJujuSecrets : Bool) (st : SecretScopeState) (key : String) :
    Option String × SecretScopeState :=
  if hasJujuSecrets then juju_secret_get_key st key
  else (kvLookup st.peerData key, st)

/-- MongoDBCharm._juju_secret_remove (src/src/charm.py lines 923-939):
refresh the cache via _juju_secrets_get; if no secret object is cached,
or the cached content is missing, falsy or lacks the key, log and
return; otherwise write the tombstone SECRET_DELETED_LABEL for the key
into the cached content and push the content to the backing secret via
set_content. -/
def juju_secret_remove (st : SecretScopeState) (key : String) : SecretScopeState :=
  let st1 := (juju_secrets_get st).2
  if !st1.secretLabelCached then st1
  else
    match st1.cachedContent with
    | none => st1
    | some cache =>
      if cache = [] then st1
      else if (kvLookup cache key).isNone then st1
      else
        let cache1 := kvSet cache key SECRET_DELETED_LABEL
        { st1 with
          cachedContent := some cache1
          extSecret :=
            match st1.extSecret with
            | some (eid, _) => some (eid, cache1)
            | none => none }

/-- MongoDBCharm.remove_secret (src/src/charm.py lines 941-948): on
Juju with secrets support delegate to _juju_secret_remove, otherwise
delete the key from the peer data; either way the function returns
None. -/
def remove_secret (hasJujuSecrets : Bool) (st : SecretScopeState) (key : String) :
    Option String × SecretScopeState :=
  if hasJujuSecrets then (none, juju_secret_remove st key)
  else (none, { st with peerData := kvErase st.peerData key })

/-- MongoDBCharm._juju_secret_set (src/src/charm.py lines 867-905):
refresh the cache; when a secret object is already cached, skip the
write if the cached value for the key equals the new value, otherwise
update the cached content and push it with set_content; when no secret
object exists yet, add a fresh secret holding only this key (freshId
is the id Juju assigns), record it in self.secrets and store its id in
the peer data under the internal-secret label. Returns the secret id.
A cached secret object with no cached content dictionary would raise
KeyError in the source; that situation is unreachable because
_juju_secrets_get always stores both together, and it is modelled by
returning the state unchanged. -/
def juju_secret_set (freshId : String) (st : SecretScopeState) (key value : String) :
    Option String × SecretScopeState :=
  let st1 := (juju_secrets_get st).2
  if st1.secretLabelCached then
    match st1.cachedContent with
    | none => (none, st1)
    | some cache =>
      let sid := match st1.extSecret with
        | some (eid, _) => eid
        | none => ""
      if kvLookup cache key = some value then (some sid, st1)
      else
        let cache1 := kvSet cache key value
        (some sid,
         { st1 with
           cachedContent := some cache1
           extSecret :=
             match st1.extSecret with
             | some (eid, _) => some (eid, cache1)
             | none => none })
  else
    (some freshId,
     { st1 with
       extSecret := some (freshId, [(key, value)])
       secretLabelCached := true
       cachedContent := some [(key, value)]
       peerData := kvSet st1.peerData SECRET_INTERNAL_LABEL freshId })

/-- MongoDBCharm.set_secret (src/src/charm.py lines 907-921): a falsy
value (None or the empty string) routes to remove_secret; otherwise on
Juju with secrets support the value is written through
_juju_secret_set and its result returned, and without secrets support
the peer data is updated and None returned. -/
def set_secret (hasJujuSecrets : Bool) (freshId : String) (st : SecretScopeState)
    (key : String) (value : Option String) : Option String × SecretScopeState :=
  match value with
  | none => remove_secret hasJujuSecrets st key
  | some v =>
    if v = "" then remove_secret hasJujuSecrets st key
    else if hasJujuSecrets then juju_secret_set freshId st key v
    else (none, { st with peerData := kvSet st.peerData key v })

/-- Reachable-state invariant tying the pieces of a SecretScopeState
together, maintained by the accessors above: a cached secret object
refers to the existing backing secret; cached content, when present,
was downloaded from (and written through to) the backing secret; and
the internal-secret label in peer data points at the backing secret
exactly when one exists. -/
structure SecretScopeState.WF (st : SecretScopeState) : Prop where
  cachedImpliesExt : st.secretLabelCached = true → st.extSecret.isSome
  contentImpliesCached : st.cachedContent.isSome → st.secretLabelCached = true
  cacheCoherent : ∀ c eid cont, st.cachedContent = some c →
    st.extSecret = some (eid, cont) → c = cont
  extLabelled : ∀ eid cont, st.extSecret = some (eid, cont) →
    kvLookup st.peerData SECRET_INTERNAL_LABEL = some eid ∧ eid ≠ ""
  labelledExt : ∀ sid, kvLookup st.peerData SECRET_INTERNAL_LABEL = some sid →
    ∃ cont, st.extSecret = some (sid, cont)

theorem kvLookup_kvErase (l : List (String × String)) (k : String) :
    kvLookup (kvErase l k) k = none := by
  induction l with
  | nil => rfl
  | cons p rest ih =>
    by_cases hp : p.1 = k
    · simpa [kvErase, hp] using ih
    · simpa [kvErase, kvLookup, List.find?, hp] using ih

theorem kvLookup_kvSet (l : List (String × String)) (k v : String) :
    kvLookup (kvSet l k v) k = some v := by
  induction l with
  | nil => simp [kvLookup, kvSet, List.find?]
  | cons p rest ih =>
    by_cases hp : p.1 = k
    · simpa [kvSet, hp] using ih
    · simpa [kvSet, kvLookup, List.find?, hp] using ih

theorem kvSet_ne_nil (l : List (String × String)) (k v : String) :
    kvSet l k v ≠ [] := by
  simp [kvSet]

theorem juju_secrets_get_spec (st : SecretScopeState) (hwf : st.WF) :
    (kvLookup st.peerData SECRET_INTERNAL_LABEL = none ∧
      juju_secrets_get st = (none, st) ∧ st.secretLabelCached = false ∧
      st.extSecret = none) ∨
    (∃ sid cont, kvLookup st.peerData SECRET_INTERNAL_LABEL = some sid ∧
      st.extSecret = some (sid, cont) ∧ sid ≠ "" ∧
      juju_secrets_get st =
        (some (decide (cont ≠ [])),
         { st with secretLabelCached := true, cachedContent := some cont })) := by
  obtain ⟨pd, ext, slc, cc⟩ := st
  rcases hlab : kvLookup pd SECRET_INTERNAL_LABEL with _ | sid
  · left
    have hext : ext = none := by
      rcases hext : ext with _ | ⟨eid, cont⟩
      · rfl
      · have hl := (hwf.extLabelled eid cont (by simpa using hext)).1
        simp only at hl
        rw [hlab] at hl
        exact absurd hl (by simp)
    have hsl : slc = false := by
      rcases hsl : slc with _ | _
      · rfl
      · have h2 := hwf.cachedImpliesExt (by simpa using hsl)
        simp only at h2
        rw [hext] at h2
        simp at h2
    exact ⟨rfl, by simp [juju_secrets_get, hlab], hsl, hext⟩
  · right
    obtain ⟨cont, hext⟩ := hwf.labelledExt sid (by simpa using hlab)
    simp only at hext
    have hsid : sid ≠ "" := (hwf.extLabelled sid cont (by simpa using hext)).2
    refine ⟨sid, cont, rfl, hext, hsid, ?_⟩
    rcases hcc : cc with _ | c
    · subst hcc
      simp [juju_secrets_get, hlab, hsid, hext]
    · subst hcc
      have hc : c = cont := hwf.cacheCoherent c sid cont rfl (by simpa using hext)
      subst hc
      have hslc : slc = true := hwf.contentImpliesCached (by simp)
      subst hslc
      simp [juju_secrets_get, hlab, hsid]

/-- Claim C10: set_secret with a falsy value (None or the empty string)
never stores that value; it routes to secret removal, returns None, and
a subsequent get_secret for the key yields no value; in the
Juju-secrets path, whenever the backing secret content holds the key,
that content afterwards holds the tombstone sentinel for the key. -/
theorem set_secret_falsy_removes :
    ∀ (hasJujuSecrets : Bool) (freshId : String) (st : SecretScopeState)
      (key : String) (value : Option String),
      st.WF → value.getD "" = "" →
      (set_secret hasJujuSecrets freshId st key value).1 = none ∧
      (get_secret hasJujuSecrets
          (set_secret hasJujuSecrets freshId st key value).2 key).1 = none ∧
      (hasJujuSecrets = true →
        ∀ eid cont, st.extSecret = some (eid, cont) → (kvLookup cont key).isSome →
          ∃ cont1,
            (set_secret hasJujuSecrets freshId st key value).2.extSecret =
              some (eid, cont1) ∧
            kvLookup cont1 key = some SECRET_DELETED_LABEL) := by
  intro hasJuju freshId st key value hwf hfalsy
  have hset : set_secret hasJuju freshId st key value = remove_secret hasJuju st key := by
    rcases value with _ | v
    · rfl
    · have hv : v = "" := by simpa using hfalsy
      subst hv
      rfl
  rw [hset]
  cases hasJuju with
  | false =>
    refine ⟨rfl, ?_, by intro h; exact absurd h (by simp)⟩
    simp [remove_secret, get_secret, kvLookup_kvErase]
  | true =>
    rcases juju_secrets_get_spec st hwf with ⟨hlab, hget, hsl, hext⟩ |
      ⟨sid, cont, hlab, hext, hsid, hget⟩
    · have hfix : juju_secret_remove st key = st := by
        simp [juju_secret_remove, hget, hsl]
      refine ⟨rfl, ?_, ?_⟩
      · by_cases hk : key = ""
        · simp [remove_secret, get_secret, juju_secret_get_key, hfix, hk]
        · simp [remove_secret, get_secret, juju_secret_get_key, hfix, hk, hget]
      · intro _ eid cont hsome
        rw [hext] at hsome
        exact absurd hsome (by simp)
    · obtain ⟨pd, ext, slc, cc⟩ := st
      simp only at hlab hext hget
      subst hext
      by_cases hnil : cont = []
      · subst hnil
        have hfix : juju_secret_remove ⟨pd, some (sid, []), slc, cc⟩ key =
            ⟨pd, some (sid, []), true, some []⟩ := by
          simp [juju_secret_remove, hget]
        refine ⟨rfl, ?_, ?_⟩
        · by_cases hk : key = ""
          · simp [remove_secret, get_secret, juju_secret_get_key, hfix, hk]
          · simp [remove_secret, get_secret, juju_secret_get_key, hfix, hk,
              juju_secrets_get, hlab, hsid]
        · intro _ eid cont1 hsome hkey
          have h1 := Option.some.inj hsome
          have he2 : cont1 = [] := (congrArg Prod.snd h1).symm
          rw [he2] at hkey
          exact absurd hkey (by simp [kvLookup])
      · by_cases hkey : (kvLookup cont key).isSome
        · obtain ⟨v, hv⟩ := Option.isSome_iff_exists.mp hkey
          have hfix : juju_secret_remove ⟨pd, some (sid, cont), slc, cc⟩ key =
              ⟨pd, some (sid, kvSet cont key SECRET_DELETED_LABEL), true,
                some (kvSet cont key SECRET_DELETED_LABEL)⟩ := by
            simp [juju_secret_remove, hget, hnil, hv]
          refine ⟨rfl, ?_, ?_⟩
          · by_cases hk : key = ""
            · simp [remove_secret, get_secret, juju_secret_get_key, hfix, hk]
            · simp [remove_secret, get_secret, juju_secret_get_key, hfix, hk,
                juju_secrets_get, hlab, hsid, kvSet_ne_nil, kvLookup_kvSet,
                SECRET_DELETED_LABEL]
          · intro _ eid cont1 hsome _
            have h1 := Option.some.inj hsome
            have he1 : eid = sid := (congrArg Prod.fst h1).symm
            have he2 : cont1 = cont := (congrArg Prod.snd h1).symm
            subst he1
            subst he2
            refine ⟨kvSet cont1 key SECRET_DELETED_LABEL, ?_, kvLookup_kvSet _ _ _⟩
            simp [remove_secret, hfix]
        · have hknone : kvLookup cont key = none := by
            rcases h : kvLookup cont key with _ | v
            · rfl
            · rw [h] at hkey; simp at hkey
          have hfix : juju_secret_remove ⟨pd, some (sid, cont), slc, cc⟩ key =
              ⟨pd, some (sid, cont), true, some cont⟩ := by
            simp [juju_secret_remove, hget, hnil, hknone]
          refine ⟨rfl, ?_, ?_⟩
          · by_cases hk : key = ""
            · simp [remove_secret, get_secret, juju_secret_get_key, hfix, hk]
            · simp [remove_secret, get_secret, juju_secret_get_key, hfix, hk,
                juju_secrets_get, hlab, hsid, hnil, hknone]
          · intro _ eid cont1 hsome hk2
            have h1 := Option.some.inj hsome
            have he2 : cont1 = cont := (congrArg Prod.snd h1).symm
            rw [he2, hknone] at hk2
            exact absurd hk2 (by simp)

/-- A reachable Juju-secrets scope state: the peer data labels one
backing secret holding one password key, not yet downloaded into the
process cache. -/
def secretStateExample : SecretScopeState :=
  { peerData := [(SECRET_INTERNAL_LABEL, "secret:abc")]
    extSecret := some ("secret:abc", [("operator-password", "p")])
    secretLabelCached := false
    cachedContent := none }

theorem secretStateExample_wf : secretStateExample.WF := by
  refine ⟨fun _ => rfl, fun h => by simp [secretStateExample] at h, ?_, ?_, ?_⟩
  · intro c eid cont h1 _
    simp [secretStateExample] at h1
  · intro eid cont h
    simp only [secretStateExample, Option.some.injEq, Prod.mk.injEq] at h
    simp [secretStateExample, kvLookup, SECRET_INTERNAL_LABEL, List.find?, h.1.symm]
  · intro sid h
    simp only [secretStateExample, kvLookup, SECRET_INTERNAL_LABEL, List.find?] at h
    simp at h
    exact ⟨[("operator-password", "p")], by simp [secretStateExample, h]⟩

/-- Witness for set_secret_falsy_removes: removing the stored password
by setting it to None returns None and makes the key unreadable. -/
theorem set_secret_falsy_removes_witness :
    (set_secret true "secret:new" secretStateExample "operator-password" none).1 = none ∧
    (get_secret true
        (set_secret true "secret:new" secretStateExample "operator-password" none).2
        "operator-password").1 = none ∧
    (set_secret true "secret:new" secretStateExample "operator-password" none).2.extSecret =
      some ("secret:abc",
        kvSet [("operator-password", "p")] "operator-password" SECRET_DELETED_LABEL) := by
  have h := set_secret_falsy_removes true "secret:new" secretStateExample
    "operator-password" none secretStateExample_wf rfl
  exact ⟨h.1, h.2.1, by decide⟩

end MongoDBK8s
